import Mathlib

/-!
Shallow embedding of the snake-core game engine (snake-core/src/lib.rs).

Machine integers (`i32`, `u32`, `usize`) are modelled as `Int`/`Nat`.
Rust's `%` on `i32` is truncated remainder, i.e. `Int.tmod`.
The generic fixed-capacity backing arrays are modelled as `List`s whose
length is the capacity; panicking accesses (`unwrap`, out-of-range index,
failed `assert_eq!`) are modelled as `Option.none` where a claim depends
on them, and otherwise only occur outside the well-formedness hypotheses
under which the claims are stated.
-/

/-- Direction enum from the source. -/
inductive Direction where
  | Up
  | Down
  | Left
  | Right
deriving DecidableEq, Repr

/-- Square enum from the source; `Default` is `Empty`. -/
inductive Square where
  | Fruit
  | Empty
  | Snake
deriving DecidableEq, Repr

/-- GameStatus enum from the source. -/
inductive GameStatus where
  | InProgress
  | Lost
  | Won
deriving DecidableEq, Repr

/-- Location struct from the source: a signed 2D integer coordinate. -/
structure Location where
  x : Int
  y : Int
deriving DecidableEq, Repr

instance : Inhabited Location := ⟨⟨0, 0⟩⟩

/-- Location::move_in from the source. -/
def Location.move_in (l : Location) (direction : Direction) : Location :=
  match direction with
  | Direction.Up => ⟨l.x, l.y - 1⟩
  | Direction.Down => ⟨l.x, l.y + 1⟩
  | Direction.Left => ⟨l.x - 1, l.y⟩
  | Direction.Right => ⟨l.x + 1, l.y⟩

/-- One coordinate of Location::wrap from the source: first branch reduces
values at or above the bound with Rust `%` (`Int.tmod`); the second branch
adds the bound to the truncated remainder of a negative value. -/
def wrapCoord (v : Int) (n : Nat) : Int :=
  let v1 := if (n : Int) ≤ v then v.tmod n else v
  if v1 < 0 then (n : Int) + v1.tmod n else v1

/-- Location::wrap from the source, applied componentwise. -/
def Location.wrap (l : Location) (max_width max_height : Nat) : Location :=
  ⟨wrapCoord l.x max_width, wrapCoord l.y max_height⟩

/-- The random-source capability: an infinite sequence of `u32` draws plus a
cursor. `next` returns the current draw reduced mod 2^32 and advances. -/
structure Rng where
  seq : Nat → Nat
  idx : Nat

/-- RandomNumberGenerator::next. -/
def Rng.next (r : Rng) : Nat × Rng :=
  (r.seq r.idx % 2 ^ 32, ⟨r.seq, r.idx + 1⟩)

/-- Rust's `u32 as i32` reinterpretation on an already-reduced draw. -/
def u32ToI32 (v : Nat) : Int :=
  if v < 2 ^ 31 then (v : Int) else (v : Int) - 2 ^ 32

/-- The free function place_new_fruit from the source: scan dy over
[0,height) (outer) and dx over [0,width) (inner); the first wrapped
candidate not contained in `taken` is returned. -/
def place_new_fruit (expected : Location) (width height : Nat)
    (taken : List Location) : Option Location :=
  (List.range height).findSome? fun (y : Nat) =>
    (List.range width).findSome? fun (x : Nat) =>
      let l := (Location.mk (expected.x + (x : Int))
                  (expected.y + (y : Int))).wrap width height
      if l ∈ taken then none else some l

/-- The Game struct from the source. The `snake` list is the full backing
array (its length is the capacity of the snake storage); `snake_size` is the
logical length. The derived cached board field is omitted: it is written by
`board()` and never read by the engine. -/
structure Game where
  width : Nat
  height : Nat
  snake : List Location
  snake_size : Nat
  current_direction : Direction
  next_direction : Direction
  fruit : Location
  status : GameStatus
  rng : Rng

/-- Game::snake(): the live portion of the backing array. -/
def Game.liveSnake (g : Game) : List Location :=
  g.snake.take g.snake_size

/-- Game::change_direction from the source: commit the pending direction
unless it is the direct opposite of the current one. -/
def Game.change_direction (g : Game) : Game :=
  if (match (g.next_direction, g.current_direction) with
      | (Direction.Left, Direction.Right) => false
      | (Direction.Right, Direction.Left) => false
      | (Direction.Up, Direction.Down) => false
      | (Direction.Down, Direction.Up) => false
      | (_, _) => true) then
    { g with current_direction := g.next_direction }
  else
    g

/-- Game::calcualte_new_head_location from the source (name kept verbatim):
move the last live segment one unit in the current direction and wrap.
The source unwraps `last()`; the default only applies to states with an
empty live snake, on which the source panics. -/
def Game.calcualte_new_head_location (g : Game) : Location :=
  ((g.liveSnake.getLastD ⟨0, 0⟩).move_in g.current_direction).wrap g.width g.height

/-- Game::eat_the_fruit from the source: write the fruit at index
`snake_size` and increment the logical length. -/
def Game.eat_the_fruit (g : Game) : Game :=
  { g with snake := g.snake.set g.snake_size g.fruit,
           snake_size := g.snake_size + 1 }

/-- Game::place_new_fruit from the source: two fresh draws reinterpreted as
`i32`, wrapped into the board, then the free search excluding the live
snake. Returns the search result together with the game with advanced rng. -/
def Game.placeNewFruitRng (g : Game) : Option Location × Game :=
  let p1 := g.rng.next
  let p2 := p1.2.next
  let fruit := (Location.mk (u32ToI32 p1.1) (u32ToI32 p2.1)).wrap g.width g.height
  (place_new_fruit fruit g.width g.height g.liveSnake, { g with rng := p2.2 })

/-- Game::move_snake_in_current_direction from the source: the loop copies
segment i+1 into segment i for i in [0, snake_size-1) and then writes the
new head at the last live index; slots at and beyond `snake_size` keep
their values. -/
def Game.move_snake_in_current_direction (g : Game) (new_head : Location) : Game :=
  { g with snake := ((g.snake.take g.snake_size).drop 1 ++ [new_head]) ++
                    g.snake.drop g.snake_size }

/-- The body of Game::move_snake_and_get_status after the initial
change_direction call: the match on the new head location. -/
def Game.stepMoved (g : Game) : GameStatus × Game :=
  let new_location := g.calcualte_new_head_location
  if g.fruit = new_location then
    let g1 := g.eat_the_fruit
    let pr := g1.placeNewFruitRng
    match pr.1 with
    | some location => (GameStatus.InProgress, { pr.2 with fruit := location })
    | none => (GameStatus.Won, pr.2)
  else if new_location ∈ g.liveSnake then
    (GameStatus.Lost, g)
  else
    (GameStatus.InProgress, g.move_snake_in_current_direction new_location)

/-- Game::move_snake_and_get_status from the source: commit the pending
direction, then dispatch on the new head location. -/
def Game.move_snake_and_get_status (g : Game) : GameStatus × Game :=
  g.change_direction.stepMoved

/-- Snake::advance for Game from the source: a no-op returning the current
status in terminal states; otherwise run one tick and store its status. -/
def Game.advance (g : Game) : GameStatus × Game :=
  if g.status = GameStatus.InProgress then
    let p := g.move_snake_and_get_status
    (p.1, { p.2 with status := p.1 })
  else
    (g.status, g)

/-- Snake::set_direction for Game from the source. -/
def Game.set_direction (g : Game) (direction : Direction) : Game :=
  { g with next_direction := direction }

/-- Writing one square of a derived board snapshot, row-major index
y*width+x (Board::at_mut); coordinates are in-board at every call site
reachable under the stated hypotheses, where `Int.toNat` agrees with
Rust's cast. -/
def boardSet (data : List Square) (width : Nat) (l : Location) (s : Square) :
    List Square :=
  data.set (l.y.toNat * width + l.x.toNat) s

/-- Snake::board for Game from the source: a fresh all-Empty snapshot of
width*height squares; InProgress marks the fruit then every live segment;
Won marks every slot of the full backing array; Lost leaves it all Empty. -/
def Game.board (g : Game) : List Square :=
  let empty := List.replicate (g.width * g.height) Square.Empty
  match g.status with
  | GameStatus.InProgress =>
      g.liveSnake.foldl (fun b l => boardSet b g.width l Square.Snake)
        (boardSet empty g.width g.fruit Square.Fruit)
  | GameStatus.Won =>
      g.snake.foldl (fun b l => boardSet b g.width l Square.Snake) empty
  | GameStatus.Lost => empty

/-- Game::new from the source. `capS` and `capB` are the capacities of the
snake-backing and board-backing storage (`S::default().len()` and
`B::default().len()`); `none` models the fatal outcomes: a failed
`assert_eq!` of either capacity against width*height, or the final
`unwrap` of the first fruit placement. -/
def Game.new (capS capB width height : Nat) (rng0 : Rng) : Option Game :=
  if capS = width * height ∧ capB = width * height then
    let center_x : Int := (width / 2 : Nat)
    let center_y : Int := (height / 2 : Nat)
    let snake := ((List.replicate capS (Location.mk 0 0)).set 1
                    (Location.mk center_x center_y)).set 0
                    (Location.mk (center_x - 1) center_y)
    let g : Game :=
      { width := width, height := height, snake := snake, snake_size := 2,
        current_direction := Direction.Right, next_direction := Direction.Right,
        fruit := ⟨0, 0⟩, status := GameStatus.InProgress, rng := rng0 }
    let pr := g.placeNewFruitRng
    pr.1.map fun f => { pr.2 with fruit := f }
  else
    none

/-- The externally visible operations of the Snake trait, used to define
reachable states. -/
inductive Op where
  | advanceOp
  | setDir (d : Direction)
  | boardOp

/-- One external call. `board()` only rewrites the cached derived snapshot
(not modelled, never read by the engine), so it leaves the state unchanged. -/
def Game.step (g : Game) : Op → Game
  | Op.advanceOp => (g.advance).2
  | Op.setDir d => g.set_direction d
  | Op.boardOp => g

/-- A finite sequence of external calls. -/
def Game.run (g : Game) (ops : List Op) : Game :=
  ops.foldl Game.step g

/-! ## Arithmetic of wrapCoord -/

/-- Master description of one wrap component for a positive bound: the
result is the Euclidean remainder except at negative multiples of the
bound, where the code returns the bound itself. -/
theorem wrapCoord_eq (v : Int) (n : Nat) (hn : 0 < n) :
    wrapCoord v n = if v < 0 ∧ (n : Int) ∣ v then (n : Int) else v % n := by
  rcases v with k | m
  · have hv0 : (0 : Int) ≤ Int.ofNat k := Int.ofNat_nonneg k
    have hnot : ¬ (Int.ofNat k < 0 ∧ (n : Int) ∣ Int.ofNat k) := by
      rintro ⟨h, -⟩; omega
    rw [if_neg hnot]
    unfold wrapCoord
    by_cases hge : (n : Int) ≤ Int.ofNat k
    · have ht : (Int.ofNat k).tmod n = Int.ofNat k % n :=
        Int.tmod_eq_emod hv0 (by omega)
      have h2 : 0 ≤ Int.ofNat k % n := Int.emod_nonneg _ (by omega)
      simp only [hge, if_true, ht]
      rw [if_neg (by omega)]
    · simp only [hge, if_false]
      rw [if_neg (by omega), Int.emod_eq_of_lt hv0 (by omega)]
  · -- v = negSucc m = -(m+1): the first branch never fires, the second does
    have hvneg : Int.negSucc m < 0 := Int.negSucc_lt_zero m
    have hv : Int.negSucc m = -((m + 1 : Nat) : Int) := by
      rw [Int.negSucc_eq]; push_cast; ring
    have htm : (Int.negSucc m).tmod (Int.ofNat n) =
        -(Int.ofNat ((m + 1) % n)) := rfl
    have hq : n * ((m + 1) / n) + (m + 1) % n = m + 1 := Nat.div_add_mod _ n
    unfold wrapCoord
    simp only [if_neg (show ¬ ((n : Int) ≤ Int.negSucc m) by omega)]
    rw [if_pos hvneg]
    have hdvd_iff : (n : Int) ∣ Int.negSucc m ↔ (m + 1) % n = 0 := by
      rw [hv, Int.dvd_neg, Int.natCast_dvd_natCast, Nat.dvd_iff_mod_eq_zero]
    by_cases hz : (m + 1) % n = 0
    · rw [if_pos ⟨hvneg, hdvd_iff.mpr hz⟩]
      rw [show ((n : Int)) = Int.ofNat n from rfl, htm, hz]
      simp
    · rw [if_neg (by rw [hdvd_iff]; tauto)]
      rw [show ((n : Int)) = Int.ofNat n from rfl, htm]
      have hr1 : 0 < (m + 1) % n := Nat.pos_of_ne_zero hz
      have hr2 : (m + 1) % n < n := Nat.mod_lt _ hn
      have key : Int.negSucc m % (n : Int) = (n : Int) - ((m + 1) % n : Nat) := by
        have step1 : Int.negSucc m % (n : Int) =
            (Int.negSucc m + (n : Int) * (((m + 1) / n : Nat) + 1)) % (n : Int) :=
          (Int.add_mul_emod_self_left ..).symm
        have harith : Int.negSucc m + (n : Int) * (((m + 1) / n : Nat) + 1) =
            (n : Int) - ((m + 1) % n : Nat) := by
          rw [hv]
          have : ((m + 1 : Nat) : Int) =
              (n : Int) * (((m + 1) / n : Nat)) + (((m + 1) % n : Nat)) := by
            exact_mod_cast hq.symm
          push_cast at this ⊢
          linarith
        rw [step1, harith, Int.emod_eq_of_lt (by omega) (by omega)]
      rw [show Int.ofNat n = ((n : Nat) : Int) from rfl,
          show Int.ofNat ((m + 1) % n) = (((m + 1) % n : Nat) : Int) from rfl,
          key]
      ring

/-- The wrap of a non-negative value is its Euclidean remainder. -/
theorem wrapCoord_of_nonneg {v : Int} {n : Nat} (hv : 0 ≤ v) (hn : 0 < n) :
    wrapCoord v n = v % n := by
  rw [wrapCoord_eq v n hn, if_neg (by rintro ⟨h, -⟩; omega)]

/-- The wrap of a non-negative value lies in [0, n). -/
theorem wrapCoord_nonneg_range {v : Int} {n : Nat} (hv : 0 ≤ v) (hn : 0 < n) :
    0 ≤ wrapCoord v n ∧ wrapCoord v n < n := by
  rw [wrapCoord_of_nonneg hv hn]
  exact ⟨Int.emod_nonneg _ (by omega), Int.emod_lt_of_pos _ (by omega)⟩

/-- A wrap result is never negative (for a positive bound). -/
theorem wrapCoord_nonneg {v : Int} {n : Nat} (hn : 0 < n) :
    0 ≤ wrapCoord v n := by
  rw [wrapCoord_eq v n hn]
  split
  · omega
  · exact Int.emod_nonneg _ (by omega)

/-- A wrap result never exceeds the bound. -/
theorem wrapCoord_le {v : Int} {n : Nat} (hn : 0 < n) :
    wrapCoord v n ≤ n := by
  rw [wrapCoord_eq v n hn]
  split
  · omega
  · exact (Int.emod_lt_of_pos _ (by omega : (0 : Int) < n)).le

/-- Away from negative multiples of the bound, the wrap result is strictly
below the bound. -/
theorem wrapCoord_lt {v : Int} {n : Nat} (hn : 0 < n)
    (h : ¬ (v < 0 ∧ (n : Int) ∣ v)) : wrapCoord v n < n := by
  rw [wrapCoord_eq v n hn, if_neg h]
  exact Int.emod_lt_of_pos _ (by omega)

/-- A wrapped value at least -1 with bound at least 2 lands in [0, n); this
is the situation of every in-game head move. -/
theorem wrapCoord_move_range {v : Int} {n : Nat} (hn : 2 ≤ n) (hv : -1 ≤ v) :
    0 ≤ wrapCoord v n ∧ wrapCoord v n < n := by
  refine ⟨wrapCoord_nonneg (by omega), wrapCoord_lt (by omega) ?_⟩
  rintro ⟨h1, k, hk⟩
  have hv1 : v = -1 := by omega
  have : (n : Int) * k = -1 := by omega
  have h2 : (n : Int) * k ≤ -2 ∨ 0 ≤ (n : Int) * k := by
    rcases Int.lt_or_le k 0 with hk0 | hk0
    · left
      have : k ≤ -1 := by omega
      nlinarith
    · right; positivity
  omega

/-- The wrap result is congruent to the input modulo the bound. -/
theorem wrapCoord_emod {v : Int} {n : Nat} (hn : 0 < n) :
    wrapCoord v n % n = v % n := by
  rw [wrapCoord_eq v n hn]
  split
  · rename_i h
    rw [Int.emod_self]
    exact (Int.emod_eq_zero_of_dvd h.2).symm
  · exact Int.emod_emod_of_dvd v dvd_rfl

/-- Periodicity of wrapCoord holds everywhere except at v = -n. -/
theorem wrapCoord_period {v : Int} {n : Nat} (hn : 0 < n)
    (hv : v ≠ -(n : Int)) : wrapCoord (v + n) n = wrapCoord v n := by
  rw [wrapCoord_eq _ n hn, wrapCoord_eq v n hn]
  by_cases hd : v < 0 ∧ (n : Int) ∣ v
  · obtain ⟨hvn, k, hk⟩ := hd
    have hk1 : k ≤ -1 := by nlinarith [hk ▸ hvn]
    have hk2 : k ≠ -1 := by rintro rfl; simp at hk; omega
    have hvle : v + n ≤ 0 := by nlinarith
    have hvlt : v + n < 0 := by
      rcases Int.lt_or_le (v + n) 0 with h | h
      · exact h
      · exfalso
        have : v + n = 0 := by omega
        have : v = -(n : Int) := by omega
        exact hv this
    rw [if_pos ⟨hvlt, ⟨k + 1, by rw [hk]; ring⟩⟩, if_pos ⟨hvn, ⟨k, hk⟩⟩]
  · have hd2 : ¬ (v + n < 0 ∧ (n : Int) ∣ (v + n)) := by
      rintro ⟨h1, k, hk⟩
      apply hd
      refine ⟨by omega, ⟨k - 1, by rw [show v = (n : Int) * k - n by omega]; ring⟩⟩
    rw [if_neg hd, if_neg hd2]
    have : (v + (n : Int)) = v + (n : Int) * 1 := by ring
    rw [this, Int.add_mul_emod_self_left]

/-! ## Claim C1 -/

/-- C1 counterexample: the claim "wrap yields a component in [0, n) and
wrap(v + n, n) = wrap(v, n) for every integer v and positive n" fails at
v = -3, n = 3: the x component of wrap is 3, not in [0, 3), and adding the
bound changes the result. -/
theorem claim_C1_counterexample :
    ((Location.mk (-3) (-3)).wrap 3 3).x = 3 ∧
    ¬ ((Location.mk (-3) (-3)).wrap 3 3).x < 3 ∧
    ((Location.mk (-3 + 3) (-3)).wrap 3 3).x ≠ ((Location.mk (-3) (-3)).wrap 3 3).x := by
  decide

/-- C1 (amended): for every integer coordinate and positive bound,
Location::wrap yields a component that is non-negative, at most the bound,
and congruent to the input modulo the bound; the component lies in [0, n)
except when the input is a negative multiple of the bound, and
wrap(v + n, n) = wrap(v, n) holds except at v = -n; independently for the
x/width and y/height components. -/
theorem claim_C1_amended (l : Location) (w h : Nat) (hw : 0 < w) (hh : 0 < h) :
    (0 ≤ (l.wrap w h).x ∧ (l.wrap w h).x ≤ w ∧ (l.wrap w h).x % w = l.x % w) ∧
    (¬ (l.x < 0 ∧ (w : Int) ∣ l.x) → (l.wrap w h).x < w) ∧
    (l.x ≠ -(w : Int) →
      ((Location.mk (l.x + w) l.y).wrap w h).x = (l.wrap w h).x) ∧
    (0 ≤ (l.wrap w h).y ∧ (l.wrap w h).y ≤ h ∧ (l.wrap w h).y % h = l.y % h) ∧
    (¬ (l.y < 0 ∧ (h : Int) ∣ l.y) → (l.wrap w h).y < h) ∧
    (l.y ≠ -(h : Int) →
      ((Location.mk l.x (l.y + h)).wrap w h).y = (l.wrap w h).y) := by
  refine ⟨⟨wrapCoord_nonneg hw, wrapCoord_le hw, wrapCoord_emod hw⟩,
          fun hx => wrapCoord_lt hw hx,
          fun hx => wrapCoord_period hw hx,
          ⟨wrapCoord_nonneg hh, wrapCoord_le hh, wrapCoord_emod hh⟩,
          fun hy => wrapCoord_lt hh hy,
          fun hy => wrapCoord_period hh hy⟩

/-- C1 witness: the amended statement evaluated at l = (-1, 7), w = h = 3. -/
theorem claim_C1_witness :
    0 < 3 ∧ 0 < 3 ∧
    ((0 ≤ ((Location.mk (-1) 7).wrap 3 3).x ∧
      ((Location.mk (-1) 7).wrap 3 3).x ≤ 3 ∧
      ((Location.mk (-1) 7).wrap 3 3).x % 3 = (Location.mk (-1) 7).x % 3) ∧
     (¬ ((Location.mk (-1) 7).x < 0 ∧ (3 : Int) ∣ (Location.mk (-1) 7).x) →
        ((Location.mk (-1) 7).wrap 3 3).x < 3) ∧
     ((Location.mk (-1) 7).x ≠ -(3 : Int) →
        ((Location.mk ((Location.mk (-1) 7).x + 3) (Location.mk (-1) 7).y).wrap 3 3).x
          = ((Location.mk (-1) 7).wrap 3 3).x) ∧
     (0 ≤ ((Location.mk (-1) 7).wrap 3 3).y ∧
      ((Location.mk (-1) 7).wrap 3 3).y ≤ 3 ∧
      ((Location.mk (-1) 7).wrap 3 3).y % 3 = (Location.mk (-1) 7).y % 3) ∧
     (¬ ((Location.mk (-1) 7).y < 0 ∧ (3 : Int) ∣ (Location.mk (-1) 7).y) →
        ((Location.mk (-1) 7).wrap 3 3).y < 3) ∧
     ((Location.mk (-1) 7).y ≠ -(3 : Int) →
        ((Location.mk (Location.mk (-1) 7).x ((Location.mk (-1) 7).y + 3)).wrap 3 3).y
          = ((Location.mk (-1) 7).wrap 3 3).y)) :=
  ⟨by decide, by decide, claim_C1_amended (Location.mk (-1) 7) 3 3 (by decide) (by decide)⟩

/-! ## Claim C4 -/

/-- C4: in a terminal state (Lost or Won) advance returns the same status
and mutates nothing at all: the resulting state is the input state. -/
theorem claim_C4 (g : Game)
    (h : g.status = GameStatus.Lost ∨ g.status = GameStatus.Won) :
    g.advance = (g.status, g) := by
  have hne : ¬ g.status = GameStatus.InProgress := by
    rcases h with h | h <;> simp [h]
  simp [Game.advance, hne]

/-- A concrete terminal-state game used by witnesses. -/
def gTermW : Game :=
  { width := 3, height := 3,
    snake := [⟨0, 1⟩, ⟨1, 1⟩, ⟨0, 0⟩, ⟨0, 0⟩, ⟨0, 0⟩, ⟨0, 0⟩, ⟨0, 0⟩, ⟨0, 0⟩, ⟨0, 0⟩],
    snake_size := 2, current_direction := Direction.Right,
    next_direction := Direction.Right, fruit := ⟨2, 2⟩,
    status := GameStatus.Lost, rng := ⟨fun _ => 0, 0⟩ }

/-- C4 witness: the terminal no-op at the concrete Lost game. -/
theorem claim_C4_witness :
    (gTermW.status = GameStatus.Lost ∨ gTermW.status = GameStatus.Won) ∧
    gTermW.advance = (gTermW.status, gTermW) :=
  ⟨Or.inl rfl, claim_C4 gTermW (Or.inl rfl)⟩

/-! ## The fruit placement search as a scan over a candidate list -/

/-- The candidate locations of the Fruit Placement Search in scan order:
dy outer over [0,height), dx inner over [0,width), each wrapped. -/
def fruitCandidates (expected : Location) (width height : Nat) : List Location :=
  (List.range height).flatMap fun (y : Nat) =>
    (List.range width).map fun (x : Nat) =>
      (Location.mk (expected.x + (x : Int))
        (expected.y + (y : Int))).wrap width height

theorem findSome?_flatMap_find? (ys : List β) (f : β → List α) (p : α → Bool) :
    ys.findSome? (fun y => (f y).find? p) = (ys.flatMap f).find? p := by
  induction ys with
  | nil => rfl
  | cons y ys ih =>
    rw [List.flatMap_cons, List.find?_append, List.findSome?_cons, ← ih]
    cases (f y).find? p <;> simp

theorem findSome?_excl_map {α β : Type} [DecidableEq β] (xs : List α)
    (F : α → β) (t : List β) :
    (xs.findSome? fun x => if F x ∈ t then none else some (F x)) =
    (xs.map F).find? fun l => decide (l ∉ t) := by
  induction xs with
  | nil => rfl
  | cons x xs ih =>
    rw [List.map_cons, List.findSome?_cons]
    by_cases hx : F x ∈ t
    · simp [hx, ih]
    · simp [hx]

/-- The search is exactly the first candidate, in scan order, that is not
occupied. -/
theorem place_new_fruit_eq_find (e : Location) (w h : Nat) (t : List Location) :
    place_new_fruit e w h t =
      (fruitCandidates e w h).find? fun l => decide (l ∉ t) := by
  unfold place_new_fruit fruitCandidates
  rw [← findSome?_flatMap_find?]
  refine congrArg (fun f => (List.range h).findSome? f) (funext fun y => ?_)
  exact findSome?_excl_map (List.range w)
    (fun x : Nat => (Location.mk (e.x + (x : Int)) (e.y + (y : Int))).wrap w h) t

theorem mem_fruitCandidates {l : Location} {e : Location} {w h : Nat} :
    l ∈ fruitCandidates e w h ↔
      ∃ x y : Nat, x < w ∧ y < h ∧
        l = (Location.mk (e.x + (x : Int)) (e.y + (y : Int))).wrap w h := by
  constructor
  · intro hl
    rw [fruitCandidates] at hl
    obtain ⟨y, hy, hl⟩ := List.mem_flatMap.mp hl
    obtain ⟨x, hx, rfl⟩ := List.mem_map.mp hl
    exact ⟨x, y, List.mem_range.mp hx, List.mem_range.mp hy, rfl⟩
  · rintro ⟨x, y, hx, hy, rfl⟩
    exact List.mem_flatMap.mpr ⟨y, List.mem_range.mpr hy,
      List.mem_map.mpr ⟨x, List.mem_range.mpr hx, rfl⟩⟩

/-- Every candidate from a start with non-negative coordinates lies in the
board. -/
theorem fruitCandidates_inBoard {l e : Location} {w h : Nat}
    (hex : 0 ≤ e.x) (hey : 0 ≤ e.y) (hw : 0 < w) (hh : 0 < h)
    (hl : l ∈ fruitCandidates e w h) :
    0 ≤ l.x ∧ l.x < w ∧ 0 ≤ l.y ∧ l.y < h := by
  obtain ⟨x, y, hx, hy, rfl⟩ := mem_fruitCandidates.mp hl
  have h1 := wrapCoord_nonneg_range (v := e.x + x) (by positivity) hw
  have h2 := wrapCoord_nonneg_range (v := e.y + y) (by positivity) hh
  exact ⟨h1.1, h1.2, h2.1, h2.2⟩

/-- From a start with non-negative coordinates the candidates cover every
board cell. -/
theorem fruitCandidates_cover {e : Location} {w h : Nat}
    (hex : 0 ≤ e.x) (hey : 0 ≤ e.y) {a b : Int}
    (ha0 : 0 ≤ a) (haw : a < w) (hb0 : 0 ≤ b) (hbh : b < h) :
    Location.mk a b ∈ fruitCandidates e w h := by
  have hw : 0 < w := by omega
  have hh : 0 < h := by omega
  have hxm0 : 0 ≤ (a - e.x) % w := Int.emod_nonneg _ (by omega)
  have hxm1 : (a - e.x) % w < w := Int.emod_lt_of_pos _ (by omega)
  have hym0 : 0 ≤ (b - e.y) % h := Int.emod_nonneg _ (by omega)
  have hym1 : (b - e.y) % h < h := Int.emod_lt_of_pos _ (by omega)
  refine mem_fruitCandidates.mpr
    ⟨((a - e.x) % w).toNat, ((b - e.y) % h).toNat, by omega, by omega, ?_⟩
  have hcx : ((((a - e.x) % w).toNat : Nat) : Int) = (a - e.x) % w :=
    Int.toNat_of_nonneg hxm0
  have hcy : ((((b - e.y) % h).toNat : Nat) : Int) = (b - e.y) % h :=
    Int.toNat_of_nonneg hym0
  have keyx : wrapCoord (e.x + (((a - e.x) % w).toNat : Nat)) w = a := by
    rw [wrapCoord_of_nonneg (by omega) hw, hcx,
        Int.add_emod, Int.emod_emod_of_dvd _ dvd_rfl, ← Int.add_emod]
    have : e.x + (a - e.x) = a := by ring
    rw [this, Int.emod_eq_of_lt ha0 haw]
  have keyy : wrapCoord (e.y + (((b - e.y) % h).toNat : Nat)) h = b := by
    rw [wrapCoord_of_nonneg (by omega) hh, hcy,
        Int.add_emod, Int.emod_emod_of_dvd _ dvd_rfl, ← Int.add_emod]
    have : e.y + (b - e.y) = b := by ring
    rw [this, Int.emod_eq_of_lt hb0 hbh]
  rw [Location.wrap, keyx, keyy]

/-- A successful search result is unoccupied and is one of the candidates. -/
theorem place_new_fruit_some {e : Location} {w h : Nat} {t : List Location}
    {l : Location} (hl : place_new_fruit e w h t = some l) :
    l ∉ t ∧ l ∈ fruitCandidates e w h := by
  rw [place_new_fruit_eq_find] at hl
  refine ⟨?_, List.mem_of_find?_eq_some hl⟩
  have := List.find?_some hl
  simpa using this

/-- For a start with non-negative coordinates, the search fails exactly
when every board cell is occupied. -/
theorem place_new_fruit_none_iff {e : Location} {w h : Nat} {t : List Location}
    (hex : 0 ≤ e.x) (hey : 0 ≤ e.y) :
    place_new_fruit e w h t = none ↔
      ∀ a b : Int, 0 ≤ a → a < w → 0 ≤ b → b < h → Location.mk a b ∈ t := by
  rw [place_new_fruit_eq_find, List.find?_eq_none]
  constructor
  · intro H a b ha0 haw hb0 hbh
    have := H _ (fruitCandidates_cover hex hey ha0 haw hb0 hbh)
    simpa using this
  · intro H l hl
    have hw : 0 < w := by
      rcases Nat.eq_zero_or_pos w with rfl | hw
      · exfalso
        obtain ⟨x, y, hx, -, -⟩ := mem_fruitCandidates.mp hl
        omega
      · exact hw
    have hh : 0 < h := by
      rcases Nat.eq_zero_or_pos h with rfl | hh
      · exfalso
        obtain ⟨x, y, -, hy, -⟩ := mem_fruitCandidates.mp hl
        omega
      · exact hh
    obtain ⟨lx, ly⟩ := l
    have hb := fruitCandidates_inBoard hex hey hw hh hl
    have := H lx ly hb.1 hb.2.1 hb.2.2.1 hb.2.2.2
    simpa using this

/-! ## Claim C6 -/

/-- C6 counterexample: with start location (-3, 0) on a 3-by-1 board whose
every cell is occupied, the search still returns a location (the off-board
cell (3, 0)), so the claim "it returns no location exactly when every cell
of the board is occupied" fails as stated for arbitrary integer starts. -/
theorem claim_C6_counterexample :
    place_new_fruit (Location.mk (-3) 0) 3 1
        [Location.mk 0 0, Location.mk 1 0, Location.mk 2 0]
      = some (Location.mk 3 0) ∧
    (∀ a b : Int, 0 ≤ a → a < 3 → 0 ≤ b → b < 1 →
      Location.mk a b ∈ [Location.mk 0 0, Location.mk 1 0, Location.mk 2 0]) := by
  refine ⟨by decide, ?_⟩
  intro a b ha0 haw hb0 hbh
  have hb : b = 0 := by omega
  have ha : a = 0 ∨ a = 1 ∨ a = 2 := by omega
  subst hb
  rcases ha with rfl | rfl | rfl <;> simp

/-- C6 (amended): the search scans dy outer over [0,height) and dx inner
over [0,width), wraps start+offset, and returns the first candidate not in
the occupied set in that order (hence equal inputs give equal results); a
successful result is never occupied; and provided the start location has
non-negative coordinates (true of every in-engine call, whose start is a
wrap result), it returns no location exactly when every cell of the board
is occupied. -/
theorem claim_C6_amended (e : Location) (w h : Nat) (t : List Location) :
    place_new_fruit e w h t =
      ((fruitCandidates e w h).find? fun l => decide (l ∉ t)) ∧
    (∀ l, place_new_fruit e w h t = some l → l ∉ t) ∧
    (0 ≤ e.x → 0 ≤ e.y →
      (place_new_fruit e w h t = none ↔
        ∀ a b : Int, 0 ≤ a → a < w → 0 ≤ b → b < h → Location.mk a b ∈ t)) :=
  ⟨place_new_fruit_eq_find e w h t,
   fun _ hl => (place_new_fruit_some hl).1,
   fun hex hey => place_new_fruit_none_iff hex hey⟩

/-- C6 witness: the amended statement evaluated at start (0,0), a 2-by-2
board and one occupied cell. -/
theorem claim_C6_witness :
    place_new_fruit (Location.mk 0 0) 2 2 [Location.mk 0 0] =
      ((fruitCandidates (Location.mk 0 0) 2 2).find?
        fun l => decide (l ∉ [Location.mk 0 0])) ∧
    (∀ l, place_new_fruit (Location.mk 0 0) 2 2 [Location.mk 0 0] = some l →
      l ∉ [Location.mk 0 0]) ∧
    (0 ≤ (Location.mk 0 0).x → 0 ≤ (Location.mk 0 0).y →
      (place_new_fruit (Location.mk 0 0) 2 2 [Location.mk 0 0] = none ↔
        ∀ a b : Int, 0 ≤ a → a < 2 → 0 ≤ b → b < 2 →
          Location.mk a b ∈ [Location.mk 0 0])) :=
  claim_C6_amended (Location.mk 0 0) 2 2 [Location.mk 0 0]

/-! ## Direction reversal machinery -/

/-- The direction directly opposite a given one; the notion the spec uses
to phrase the reversal guard. -/
def Direction.opposite : Direction → Direction
  | Direction.Up => Direction.Down
  | Direction.Down => Direction.Up
  | Direction.Left => Direction.Right
  | Direction.Right => Direction.Left

/-- Committing a pending direction that is the direct opposite of the
current one is a no-op. -/
theorem change_direction_set_opposite (g : Game) :
    (g.set_direction g.current_direction.opposite).change_direction =
      g.set_direction g.current_direction.opposite := by
  cases g with
  | mk w h s n cd nd f st r => cases cd <;> rfl

/-- Committing a pending direction equal to the current one is a no-op. -/
theorem change_direction_set_self (g : Game) :
    (g.set_direction g.current_direction).change_direction =
      g.set_direction g.current_direction := by
  cases g with
  | mk w h s n cd nd f st r => cases cd <;> rfl

/-- The post-commit tick body never reads the pending direction: changing
it only changes the pending direction of the result. -/
theorem stepMoved_next (g : Game) (d : Direction) :
    ({ g with next_direction := d } : Game).stepMoved =
      ((g.stepMoved).1, { (g.stepMoved).2 with next_direction := d }) := by
  cases g with
  | mk w h s n cd nd f st r =>
    show Game.stepMoved (Game.mk w h s n cd d f st r) = _
    unfold Game.stepMoved
    dsimp only [Game.calcualte_new_head_location, Game.liveSnake,
      Game.eat_the_fruit, Game.placeNewFruitRng,
      Game.move_snake_in_current_direction]
    split <;> rename_i h1
    · split <;> rfl
    · split <;> rfl

/-- The post-commit tick body does not change the current direction. -/
theorem stepMoved_current (g : Game) :
    ((g.stepMoved).2).current_direction = g.current_direction := by
  unfold Game.stepMoved
  dsimp only
  split
  · split <;> rfl
  · split <;> rfl

/-! ## Claim C5 -/

/-- C5: in an InProgress state, requesting the direction directly opposite
the committed one is silently ignored by the next advance: the call behaves
exactly as if the pending direction were the current one (only the stored
pending value differs), and the committed direction after the advance is
still the original current direction. Quantifying over the state covers
both the Left/Right and Up/Down pairs. -/
theorem claim_C5 (g : Game) (h : g.status = GameStatus.InProgress) :
    (g.set_direction g.current_direction.opposite).advance =
      (((g.set_direction g.current_direction).advance).1,
       { ((g.set_direction g.current_direction).advance).2 with
           next_direction := g.current_direction.opposite }) ∧
    ((g.set_direction g.current_direction.opposite).advance).2.current_direction =
      g.current_direction := by
  have hs1 : (g.set_direction g.current_direction.opposite).status =
      GameStatus.InProgress := h
  have hs2 : (g.set_direction g.current_direction).status =
      GameStatus.InProgress := h
  have hL := stepMoved_next g g.current_direction.opposite
  have hR := stepMoved_next g g.current_direction
  have hmain : (g.set_direction g.current_direction.opposite).advance =
      (((g.set_direction g.current_direction).advance).1,
       { ((g.set_direction g.current_direction).advance).2 with
           next_direction := g.current_direction.opposite }) := by
    unfold Game.advance Game.move_snake_and_get_status
    rw [if_pos hs1, if_pos hs2, change_direction_set_opposite,
        change_direction_set_self]
    dsimp only
    conv_lhs => rw [show g.set_direction g.current_direction.opposite =
        ({ g with next_direction := g.current_direction.opposite } : Game)
        from rfl, hL]
    conv_rhs => rw [show g.set_direction g.current_direction =
        ({ g with next_direction := g.current_direction } : Game)
        from rfl, hR]
  refine ⟨hmain, ?_⟩
  rw [hmain]
  show ((g.set_direction g.current_direction).advance).2.current_direction =
      g.current_direction
  unfold Game.advance Game.move_snake_and_get_status
  rw [if_pos hs2, change_direction_set_self]
  exact stepMoved_current (g.set_direction g.current_direction)

/-! ## Field-preservation lemmas -/

@[simp] theorem change_direction_width (g : Game) :
    g.change_direction.width = g.width := by
  unfold Game.change_direction; split <;> rfl

@[simp] theorem change_direction_height (g : Game) :
    g.change_direction.height = g.height := by
  unfold Game.change_direction; split <;> rfl

@[simp] theorem change_direction_snake (g : Game) :
    g.change_direction.snake = g.snake := by
  unfold Game.change_direction; split <;> rfl

@[simp] theorem change_direction_snake_size (g : Game) :
    g.change_direction.snake_size = g.snake_size := by
  unfold Game.change_direction; split <;> rfl

@[simp] theorem change_direction_fruit (g : Game) :
    g.change_direction.fruit = g.fruit := by
  unfold Game.change_direction; split <;> rfl

@[simp] theorem change_direction_status (g : Game) :
    g.change_direction.status = g.status := by
  unfold Game.change_direction; split <;> rfl

@[simp] theorem change_direction_rng (g : Game) :
    g.change_direction.rng = g.rng := by
  unfold Game.change_direction; split <;> rfl

@[simp] theorem change_direction_liveSnake (g : Game) :
    g.change_direction.liveSnake = g.liveSnake := by
  unfold Game.liveSnake
  rw [change_direction_snake, change_direction_snake_size]

/-! ## List lemmas for growth and movement -/

theorem take_succ_set (s : List α) (n : Nat) (a : α) (h : n < s.length) :
    (s.set n a).take (n + 1) = s.take n ++ [a] := by
  induction s generalizing n with
  | nil => simp at h
  | cons x xs ih =>
    cases n with
    | zero => simp
    | succ m =>
      simp only [List.set_cons_succ, List.take_succ_cons, List.cons_append,
        List.cons.injEq, true_and]
      exact ih m (by simpa using h)

/-- Growing appends the fruit to the live snake. -/
theorem eat_liveSnake (g : Game) (h : g.snake_size < g.snake.length) :
    g.eat_the_fruit.liveSnake = g.liveSnake ++ [g.fruit] := by
  unfold Game.eat_the_fruit Game.liveSnake
  exact take_succ_set g.snake g.snake_size g.fruit h

/-- The live snake after a normal move: the old live snake shifted by one
with the new head appended. -/
theorem moved_liveSnake (g : Game) (nh : Location) (h1 : 1 ≤ g.snake_size)
    (h2 : g.snake_size ≤ g.snake.length) :
    (g.move_snake_in_current_direction nh).liveSnake =
      g.liveSnake.drop 1 ++ [nh] := by
  unfold Game.move_snake_in_current_direction Game.liveSnake
  have hlen : ((g.snake.take g.snake_size).drop 1 ++ [nh]).length =
      g.snake_size := by
    simp only [List.length_append, List.length_drop, List.length_take,
      List.length_cons, List.length_nil]
    omega
  show (((g.snake.take g.snake_size).drop 1 ++ [nh]) ++
      g.snake.drop g.snake_size).take g.snake_size = _
  exact List.take_left' hlen

/-- A normal move preserves the backing-array length. -/
theorem moved_snake_length (g : Game) (nh : Location) (h1 : 1 ≤ g.snake_size)
    (h2 : g.snake_size ≤ g.snake.length) :
    (g.move_snake_in_current_direction nh).snake.length = g.snake.length := by
  unfold Game.move_snake_in_current_direction
  simp only [List.length_append, List.length_drop, List.length_take,
    List.length_cons, List.length_nil]
  omega

/-! ## Claim C2 -/

/-- The start location Game::place_new_fruit derives from the next two
random draws: x from the first, y from the second, reinterpreted as i32
and wrapped into the board. -/
def Game.freshFruitSeed (g : Game) : Location :=
  (Location.mk (u32ToI32 (g.rng.seq g.rng.idx % 2 ^ 32))
    (u32ToI32 (g.rng.seq (g.rng.idx + 1) % 2 ^ 32))).wrap g.width g.height

/-- Game::place_new_fruit in closed form: the search from the fresh seed
excluding the live snake, with the rng advanced by two draws. -/
theorem placeNewFruitRng_spec (g : Game) :
    g.placeNewFruitRng =
      (place_new_fruit g.freshFruitSeed g.width g.height g.liveSnake,
       { g with rng := ⟨g.rng.seq, g.rng.idx + 2⟩ }) := rfl

/-- The fresh seed is insensitive to eating (which only touches the snake
storage) and to committing the direction. -/
theorem freshFruitSeed_eat_change (g : Game) :
    (g.change_direction.eat_the_fruit).freshFruitSeed = g.freshFruitSeed := by
  unfold Game.freshFruitSeed Game.eat_the_fruit
  rw [change_direction_rng, change_direction_width, change_direction_height]

/-- C2: in an InProgress state with room left in the backing array, when
the new head location (computed after committing the pending direction)
equals the fruit, advance appends the fruit cell (= the new head) to the
live snake, incrementing the logical length by one, and then runs the
Fruit Placement Search from the fresh two-draw seed excluding all occupied
cells: a found cell becomes the new fruit with status InProgress, no cell
means status Won. -/
theorem claim_C2 (g : Game) (h : g.status = GameStatus.InProgress)
    (hsz : g.snake_size < g.snake.length)
    (heat : (g.change_direction).calcualte_new_head_location = g.fruit) :
    ((g.advance).2.snake_size = g.snake_size + 1) ∧
    ((g.advance).2.liveSnake = g.liveSnake ++ [g.fruit]) ∧
    (∀ loc, place_new_fruit g.freshFruitSeed g.width g.height
        (g.liveSnake ++ [g.fruit]) = some loc →
      (g.advance).1 = GameStatus.InProgress ∧ (g.advance).2.fruit = loc) ∧
    (place_new_fruit g.freshFruitSeed g.width g.height
        (g.liveSnake ++ [g.fruit]) = none →
      (g.advance).1 = GameStatus.Won) := by
  have hlive : (g.change_direction.eat_the_fruit).liveSnake =
      g.liveSnake ++ [g.fruit] := by
    rw [eat_liveSnake _ (by simpa using hsz), change_direction_liveSnake,
        change_direction_fruit]
  have hres : ((g.change_direction.eat_the_fruit).placeNewFruitRng).1 =
      place_new_fruit g.freshFruitSeed g.width g.height
        (g.liveSnake ++ [g.fruit]) := by
    rw [placeNewFruitRng_spec]
    show place_new_fruit _ _ _ _ = _
    rw [freshFruitSeed_eat_change, hlive]
    unfold Game.eat_the_fruit
    rw [change_direction_width, change_direction_height]
  have hadv : g.advance =
      ((g.change_direction.stepMoved).1,
       { (g.change_direction.stepMoved).2 with
           status := (g.change_direction.stepMoved).1 }) := by
    unfold Game.advance Game.move_snake_and_get_status
    rw [if_pos h]
  have hcond : g.change_direction.fruit =
      g.change_direction.calcualte_new_head_location := by
    rw [change_direction_fruit, heat]
  have hstep : g.change_direction.stepMoved =
      (match ((g.change_direction.eat_the_fruit).placeNewFruitRng).1 with
       | some location => (GameStatus.InProgress,
           { ((g.change_direction.eat_the_fruit).placeNewFruitRng).2 with
               fruit := location })
       | none => (GameStatus.Won,
           ((g.change_direction.eat_the_fruit).placeNewFruitRng).2)) := by
    unfold Game.stepMoved
    dsimp only
    rw [if_pos hcond]
  rcases hr : ((g.change_direction.eat_the_fruit).placeNewFruitRng).1
    with _ | loc
  · rw [hr] at hstep hres
    refine ⟨?_, ?_, ?_, fun _ => ?_⟩
    · rw [hadv, hstep]
      show (g.change_direction.eat_the_fruit).snake_size = g.snake_size + 1
      show (g.change_direction).snake_size + 1 = g.snake_size + 1
      rw [change_direction_snake_size]
    · rw [hadv, hstep]
      show (g.change_direction.eat_the_fruit).liveSnake = _
      exact hlive
    · intro loc hl
      rw [← hres] at hl
      exact absurd hl (by simp)
    · rw [hadv, hstep]
  · rw [hr] at hstep hres
    refine ⟨?_, ?_, ?_, ?_⟩
    · rw [hadv, hstep]
      show (g.change_direction.eat_the_fruit).snake_size = g.snake_size + 1
      show (g.change_direction).snake_size + 1 = g.snake_size + 1
      rw [change_direction_snake_size]
    · rw [hadv, hstep]
      show (g.change_direction.eat_the_fruit).liveSnake = _
      exact hlive
    · intro loc2 hl
      rw [← hres] at hl
      have : loc = loc2 := by
        have := hl.symm.trans rfl
        injection hl
      subst this
      rw [hadv, hstep]
      exact ⟨rfl, rfl⟩
    · intro hl
      rw [← hres] at hl
      exact absurd hl (by simp)

/-- A concrete 3-by-3 InProgress game whose next head move eats the fruit. -/
def gC2W : Game :=
  { width := 3, height := 3,
    snake := [⟨0, 1⟩, ⟨1, 1⟩, ⟨0, 0⟩, ⟨0, 0⟩, ⟨0, 0⟩, ⟨0, 0⟩, ⟨0, 0⟩, ⟨0, 0⟩, ⟨0, 0⟩],
    snake_size := 2, current_direction := Direction.Right,
    next_direction := Direction.Right, fruit := ⟨2, 1⟩,
    status := GameStatus.InProgress, rng := ⟨fun _ => 0, 0⟩ }

/-- C2 witness: the growth tick at the concrete game. -/
theorem claim_C2_witness :
    gC2W.status = GameStatus.InProgress ∧
    gC2W.snake_size < gC2W.snake.length ∧
    (gC2W.change_direction).calcualte_new_head_location = gC2W.fruit ∧
    (((gC2W.advance).2.snake_size = gC2W.snake_size + 1) ∧
     ((gC2W.advance).2.liveSnake = gC2W.liveSnake ++ [gC2W.fruit]) ∧
     (∀ loc, place_new_fruit gC2W.freshFruitSeed gC2W.width gC2W.height
         (gC2W.liveSnake ++ [gC2W.fruit]) = some loc →
       (gC2W.advance).1 = GameStatus.InProgress ∧
       (gC2W.advance).2.fruit = loc) ∧
     (place_new_fruit gC2W.freshFruitSeed gC2W.width gC2W.height
         (gC2W.liveSnake ++ [gC2W.fruit]) = none →
       (gC2W.advance).1 = GameStatus.Won)) :=
  ⟨rfl, by decide, by decide, claim_C2 gC2W rfl (by decide) (by decide)⟩

/-! ## Terminal runs and claim C3 -/

/-- One external call keeps a terminal status and the dimensions. -/
theorem step_terminal {g : Game} (h : g.status ≠ GameStatus.InProgress)
    (op : Op) :
    (g.step op).status = g.status ∧ (g.step op).width = g.width ∧
    (g.step op).height = g.height := by
  cases op with
  | advanceOp =>
    show ((g.advance).2).status = _ ∧ ((g.advance).2).width = _ ∧
      ((g.advance).2).height = _
    unfold Game.advance
    rw [if_neg h]
    exact ⟨rfl, rfl, rfl⟩
  | setDir d => exact ⟨rfl, rfl, rfl⟩
  | boardOp => exact ⟨rfl, rfl, rfl⟩

/-- Any sequence of external calls keeps a terminal status and the
dimensions. -/
theorem run_terminal {g : Game} (h : g.status ≠ GameStatus.InProgress)
    (ops : List Op) :
    (g.run ops).status = g.status ∧ (g.run ops).width = g.width ∧
    (g.run ops).height = g.height := by
  induction ops generalizing g with
  | nil => exact ⟨rfl, rfl, rfl⟩
  | cons op ops ih =>
    have h1 := step_terminal h op
    have h2 := ih (g := g.step op) (by rw [h1.1]; exact h)
    exact ⟨h2.1.trans h1.1, h2.2.1.trans h1.2.1, h2.2.2.trans h1.2.2⟩

/-- The board of a Lost game is entirely empty. -/
theorem board_lost {g : Game} (h : g.status = GameStatus.Lost) :
    g.board = List.replicate (g.width * g.height) Square.Empty := by
  unfold Game.board
  rw [h]

/-- C3: in an InProgress state, when the committed-direction head move
lands on a live segment without being the fruit, advance returns Lost,
leaves the snake storage and the fruit untouched, and every board snapshot
taken after any further sequence of calls is entirely empty. -/
theorem claim_C3 (g : Game) (h : g.status = GameStatus.InProgress)
    (hne : (g.change_direction).calcualte_new_head_location ≠ g.fruit)
    (hmem : (g.change_direction).calcualte_new_head_location ∈ g.liveSnake) :
    (g.advance).1 = GameStatus.Lost ∧
    (g.advance).2.snake = g.snake ∧
    (g.advance).2.fruit = g.fruit ∧
    (g.advance).2.status = GameStatus.Lost ∧
    (∀ ops : List Op, ((g.advance).2.run ops).board =
      List.replicate (g.width * g.height) Square.Empty) := by
  have hadv : g.advance =
      ((g.change_direction.stepMoved).1,
       { (g.change_direction.stepMoved).2 with
           status := (g.change_direction.stepMoved).1 }) := by
    unfold Game.advance Game.move_snake_and_get_status
    rw [if_pos h]
  have hstep : g.change_direction.stepMoved =
      (GameStatus.Lost, g.change_direction) := by
    unfold Game.stepMoved
    dsimp only
    rw [if_neg (fun hc => hne (by rw [change_direction_fruit] at hc; exact hc.symm)),
        if_pos (by rw [change_direction_liveSnake]; exact hmem)]
  rw [hadv, hstep]
  refine ⟨rfl, change_direction_snake g, change_direction_fruit g, rfl, ?_⟩
  intro ops
  have hne2 : ({ g.change_direction with status := GameStatus.Lost } : Game).status ≠
      GameStatus.InProgress := by
    show GameStatus.Lost ≠ GameStatus.InProgress
    decide
  have hterm := run_terminal hne2 ops
  have hlost : (({ g.change_direction with status := GameStatus.Lost } : Game).run
      ops).status = GameStatus.Lost := hterm.1.trans rfl
  rw [board_lost hlost, hterm.2.1, hterm.2.2]
  show List.replicate (g.change_direction.width * g.change_direction.height)
      Square.Empty = _
  rw [change_direction_width, change_direction_height]

/-- A concrete 3-by-3 InProgress game whose next head move bites the body. -/
def gC3W : Game :=
  { width := 3, height := 3,
    snake := [⟨1, 1⟩, ⟨1, 2⟩, ⟨2, 2⟩, ⟨2, 1⟩, ⟨0, 0⟩, ⟨0, 0⟩, ⟨0, 0⟩, ⟨0, 0⟩, ⟨0, 0⟩],
    snake_size := 4, current_direction := Direction.Left,
    next_direction := Direction.Left, fruit := ⟨0, 0⟩,
    status := GameStatus.InProgress, rng := ⟨fun _ => 0, 0⟩ }

/-- C3 witness: the self-collision tick at the concrete game, with the
empty board checked after the empty call sequence. -/
theorem claim_C3_witness :
    gC3W.status = GameStatus.InProgress ∧
    (gC3W.change_direction).calcualte_new_head_location ≠ gC3W.fruit ∧
    (gC3W.change_direction).calcualte_new_head_location ∈ gC3W.liveSnake ∧
    ((gC3W.advance).1 = GameStatus.Lost ∧
     (gC3W.advance).2.snake = gC3W.snake ∧
     (gC3W.advance).2.fruit = gC3W.fruit ∧
     (gC3W.advance).2.status = GameStatus.Lost ∧
     (∀ ops : List Op, ((gC3W.advance).2.run ops).board =
       List.replicate (gC3W.width * gC3W.height) Square.Empty)) :=
  ⟨rfl, by decide, by decide, claim_C3 gC3W rfl (by decide) (by decide)⟩

/-! ## Claim C7 -/

theorem getElem?_drop_add (l : List α) (n i : Nat) :
    (l.drop n)[i]? = l[n + i]? := by
  induction l generalizing n with
  | nil => simp
  | cons x xs ih =>
    cases n with
    | zero => simp
    | succ m =>
      simp only [List.drop_succ_cons, List.getElem?_cons_succ, Nat.succ_add]
      exact ih m

/-- A concrete 5-by-5 InProgress game with a bent snake moving Up, used to
refute the whole-body-translation reading of the normal move. -/
def gC7X : Game :=
  { width := 5, height := 5,
    snake := [⟨1, 2⟩, ⟨2, 2⟩] ++ List.replicate 23 ⟨0, 0⟩,
    snake_size := 2, current_direction := Direction.Up,
    next_direction := Direction.Up, fruit := ⟨4, 4⟩,
    status := GameStatus.InProgress, rng := ⟨fun _ => 0, 0⟩ }

/-- C7 counterexample: on a normal move the body does not translate one
unit in the direction of travel: the tail segment of the bent snake ends
at (2,2), not at its old location moved Up, which is (1,1). -/
theorem claim_C7_counterexample :
    (gC7X.advance).1 = GameStatus.InProgress ∧
    (gC7X.advance).2.liveSnake = [Location.mk 2 2, Location.mk 2 1] ∧
    gC7X.liveSnake.map
      (fun l => (l.move_in (gC7X.change_direction).current_direction).wrap
        gC7X.width gC7X.height) = [Location.mk 1 1, Location.mk 2 1] ∧
    (gC7X.advance).2.liveSnake ≠
      gC7X.liveSnake.map
        (fun l => (l.move_in (gC7X.change_direction).current_direction).wrap
          gC7X.width gC7X.height) := by
  decide

/-- C7 (amended): in an InProgress state whose committed-direction head
move hits neither the fruit nor a live segment, advance returns InProgress
and shifts every segment one index toward the tail (new segment i is old
segment i+1 for every i in [0, length-1)), placing the new head — the old
head moved one unit in the committed direction, wrapped — at the final
logical index; the logical length is unchanged. (The original claim's
parenthetical "every segment's location equals its old location moved one
unit in the committed direction" is dropped: it fails for bent snakes.) -/
theorem claim_C7_amended (g : Game) (h : g.status = GameStatus.InProgress)
    (h1 : 1 ≤ g.snake_size) (h2 : g.snake_size ≤ g.snake.length)
    (hne : (g.change_direction).calcualte_new_head_location ≠ g.fruit)
    (hnc : (g.change_direction).calcualte_new_head_location ∉ g.liveSnake) :
    (g.advance).1 = GameStatus.InProgress ∧
    (g.advance).2.snake_size = g.snake_size ∧
    (g.advance).2.liveSnake =
      g.liveSnake.drop 1 ++ [(g.change_direction).calcualte_new_head_location] ∧
    (∀ i, i + 1 < g.snake_size →
      ((g.advance).2.liveSnake)[i]? = g.liveSnake[i + 1]?) ∧
    ((g.advance).2.liveSnake)[g.snake_size - 1]? =
      some ((g.change_direction).calcualte_new_head_location) ∧
    (g.change_direction).calcualte_new_head_location =
      ((g.liveSnake.getLastD ⟨0, 0⟩).move_in
        (g.change_direction).current_direction).wrap g.width g.height := by
  have hadv : g.advance =
      ((g.change_direction.stepMoved).1,
       { (g.change_direction.stepMoved).2 with
           status := (g.change_direction.stepMoved).1 }) := by
    unfold Game.advance Game.move_snake_and_get_status
    rw [if_pos h]
  have hstep : g.change_direction.stepMoved =
      (GameStatus.InProgress,
       g.change_direction.move_snake_in_current_direction
         (g.change_direction).calcualte_new_head_location) := by
    unfold Game.stepMoved
    dsimp only
    rw [if_neg (fun hc => hne (by rw [change_direction_fruit] at hc; exact hc.symm)),
        if_neg (by rw [change_direction_liveSnake]; exact hnc)]
  have hlivelen : g.liveSnake.length = g.snake_size := by
    unfold Game.liveSnake
    simp only [List.length_take]
    omega
  have hmoved : (g.change_direction.move_snake_in_current_direction
      (g.change_direction).calcualte_new_head_location).liveSnake =
      g.liveSnake.drop 1 ++ [(g.change_direction).calcualte_new_head_location] := by
    rw [moved_liveSnake _ _ (by simpa using h1) (by simp only
      [change_direction_snake, change_direction_snake_size]; exact h2),
      change_direction_liveSnake]
  have hcalc : (g.change_direction).calcualte_new_head_location =
      ((g.liveSnake.getLastD ⟨0, 0⟩).move_in
        (g.change_direction).current_direction).wrap g.width g.height := by
    unfold Game.calcualte_new_head_location
    rw [change_direction_liveSnake, change_direction_width,
        change_direction_height]
  refine ⟨?_, ?_, ?_, ?_, ?_, hcalc⟩
  · rw [hadv, hstep]
  · rw [hadv, hstep]
    show (g.change_direction).snake_size = g.snake_size
    exact change_direction_snake_size g
  · rw [hadv, hstep]
    show (g.change_direction.move_snake_in_current_direction _).liveSnake = _
    exact hmoved
  · intro i hi
    rw [hadv, hstep]
    show (g.change_direction.move_snake_in_current_direction _).liveSnake[i]? = _
    rw [hmoved, List.getElem?_append_left
        (by simp only [List.length_drop, hlivelen]; omega),
      getElem?_drop_add, Nat.add_comm]
  · rw [hadv, hstep]
    show (g.change_direction.move_snake_in_current_direction _).liveSnake[
        g.snake_size - 1]? = _
    rw [hmoved]
    have hdl : (g.liveSnake.drop 1).length = g.snake_size - 1 := by
      simp only [List.length_drop, hlivelen]
    rw [List.getElem?_append_right (by omega)]
    rw [hdl]
    simp

/-- C7 witness: the amended normal-move statement at the concrete bent
snake. -/
theorem claim_C7_witness :
    gC7X.status = GameStatus.InProgress ∧
    1 ≤ gC7X.snake_size ∧
    gC7X.snake_size ≤ gC7X.snake.length ∧
    (gC7X.change_direction).calcualte_new_head_location ≠ gC7X.fruit ∧
    (gC7X.change_direction).calcualte_new_head_location ∉ gC7X.liveSnake ∧
    ((gC7X.advance).1 = GameStatus.InProgress ∧
     (gC7X.advance).2.snake_size = gC7X.snake_size ∧
     (gC7X.advance).2.liveSnake =
       gC7X.liveSnake.drop 1 ++
         [(gC7X.change_direction).calcualte_new_head_location] ∧
     (∀ i, i + 1 < gC7X.snake_size →
       ((gC7X.advance).2.liveSnake)[i]? = gC7X.liveSnake[i + 1]?) ∧
     ((gC7X.advance).2.liveSnake)[gC7X.snake_size - 1]? =
       some ((gC7X.change_direction).calcualte_new_head_location) ∧
     (gC7X.change_direction).calcualte_new_head_location =
       ((gC7X.liveSnake.getLastD ⟨0, 0⟩).move_in
         (gC7X.change_direction).current_direction).wrap gC7X.width gC7X.height) :=
  ⟨rfl, by decide, by decide, by decide, by decide,
   claim_C7_amended gC7X rfl (by decide) (by decide) (by decide) (by decide)⟩

/-! ## Claim C10 -/

/-- C10: in an InProgress state, setting a perpendicular direction and then
the direct opposite of the committed direction before one advance makes
that advance move the snake in the unchanged committed direction (the
later opposite request is vetoed, the earlier perpendicular request is
overwritten and not restored), returning InProgress when the head lands on
a free, non-fruit cell. -/
theorem claim_C10 (g : Game) (p : Direction)
    (h : g.status = GameStatus.InProgress)
    (_hperp : p ≠ g.current_direction ∧ p ≠ g.current_direction.opposite)
    (h1 : 1 ≤ g.snake_size) (h2 : g.snake_size ≤ g.snake.length)
    (hne : ((g.liveSnake.getLastD ⟨0, 0⟩).move_in g.current_direction).wrap
        g.width g.height ≠ g.fruit)
    (hnc : ((g.liveSnake.getLastD ⟨0, 0⟩).move_in g.current_direction).wrap
        g.width g.height ∉ g.liveSnake) :
    ((((g.set_direction p).set_direction
        g.current_direction.opposite).advance).1 = GameStatus.InProgress) ∧
    ((((g.set_direction p).set_direction
        g.current_direction.opposite).advance).2.current_direction =
      g.current_direction) ∧
    ((((g.set_direction p).set_direction
        g.current_direction.opposite).advance).2.liveSnake =
      g.liveSnake.drop 1 ++
        [((g.liveSnake.getLastD ⟨0, 0⟩).move_in g.current_direction).wrap
          g.width g.height]) := by
  have hself : (g.set_direction p).set_direction g.current_direction.opposite =
      g.set_direction g.current_direction.opposite := rfl
  rw [hself]
  have hs1 : (g.set_direction g.current_direction.opposite).status =
      GameStatus.InProgress := h
  have hadv : (g.set_direction g.current_direction.opposite).advance =
      (((g.set_direction g.current_direction.opposite).stepMoved).1,
       { ((g.set_direction g.current_direction.opposite).stepMoved).2 with
           status :=
             ((g.set_direction g.current_direction.opposite).stepMoved).1 }) := by
    unfold Game.advance Game.move_snake_and_get_status
    rw [if_pos hs1, change_direction_set_opposite]
  have hcalc : (g.set_direction g.current_direction.opposite).calcualte_new_head_location =
      ((g.liveSnake.getLastD ⟨0, 0⟩).move_in g.current_direction).wrap
        g.width g.height := rfl
  have hstep : (g.set_direction g.current_direction.opposite).stepMoved =
      (GameStatus.InProgress,
       (g.set_direction g.current_direction.opposite).move_snake_in_current_direction
         (((g.liveSnake.getLastD ⟨0, 0⟩).move_in g.current_direction).wrap
           g.width g.height)) := by
    unfold Game.stepMoved
    dsimp only
    rw [hcalc]
    rw [if_neg (fun hc => hne hc.symm),
        if_neg (show ¬ ((g.liveSnake.getLastD ⟨0, 0⟩).move_in
            g.current_direction).wrap g.width g.height ∈
          (g.set_direction g.current_direction.opposite).liveSnake from hnc)]
  refine ⟨by rw [hadv, hstep], ?_, ?_⟩
  · rw [hadv, hstep]
    rfl
  · rw [hadv, hstep]
    show ((g.set_direction g.current_direction.opposite).move_snake_in_current_direction
      _).liveSnake = _
    rw [moved_liveSnake (g.set_direction g.current_direction.opposite) _ h1 h2]
    rfl

/-- C5 witness: the reversal guard at the concrete game moving Up. -/
theorem claim_C5_witness :
    gC7X.status = GameStatus.InProgress ∧
    ((gC7X.set_direction gC7X.current_direction.opposite).advance =
      (((gC7X.set_direction gC7X.current_direction).advance).1,
       { ((gC7X.set_direction gC7X.current_direction).advance).2 with
           next_direction := gC7X.current_direction.opposite }) ∧
     ((gC7X.set_direction gC7X.current_direction.opposite).advance).2.current_direction =
      gC7X.current_direction) :=
  ⟨rfl, claim_C5 gC7X rfl⟩

/-- C10 witness: perpendicular then opposite requests before one advance
at the concrete game moving Up, with p = Left. -/
theorem claim_C10_witness :
    gC7X.status = GameStatus.InProgress ∧
    (Direction.Left ≠ gC7X.current_direction ∧
     Direction.Left ≠ gC7X.current_direction.opposite) ∧
    1 ≤ gC7X.snake_size ∧
    gC7X.snake_size ≤ gC7X.snake.length ∧
    ((gC7X.liveSnake.getLastD ⟨0, 0⟩).move_in gC7X.current_direction).wrap
        gC7X.width gC7X.height ≠ gC7X.fruit ∧
    ((gC7X.liveSnake.getLastD ⟨0, 0⟩).move_in gC7X.current_direction).wrap
        gC7X.width gC7X.height ∉ gC7X.liveSnake ∧
    (((((gC7X.set_direction Direction.Left).set_direction
        gC7X.current_direction.opposite).advance).1 = GameStatus.InProgress) ∧
     ((((gC7X.set_direction Direction.Left).set_direction
        gC7X.current_direction.opposite).advance).2.current_direction =
       gC7X.current_direction) ∧
     ((((gC7X.set_direction Direction.Left).set_direction
        gC7X.current_direction.opposite).advance).2.liveSnake =
       gC7X.liveSnake.drop 1 ++
         [((gC7X.liveSnake.getLastD ⟨0, 0⟩).move_in gC7X.current_direction).wrap
           gC7X.width gC7X.height])) :=
  ⟨rfl, by decide, by decide, by decide, by decide, by decide,
   claim_C10 gC7X Direction.Left rfl (by decide) (by decide) (by decide)
     (by decide) (by decide)⟩

/-! ## Board cells as a finite set, and the pigeonhole facts -/

/-- The set of cells of a width-by-height board. -/
def boardFinset (w h : Nat) : Finset Location :=
  (Finset.range w ×ˢ Finset.range h).image fun p => Location.mk p.1 p.2

theorem mem_boardFinset {l : Location} {w h : Nat} :
    l ∈ boardFinset w h ↔ 0 ≤ l.x ∧ l.x < w ∧ 0 ≤ l.y ∧ l.y < h := by
  obtain ⟨a, b⟩ := l
  unfold boardFinset
  rw [Finset.mem_image]
  show _ ↔ 0 ≤ a ∧ a < w ∧ 0 ≤ b ∧ b < h
  constructor
  · rintro ⟨p, hp, hpe⟩
    rw [Finset.mem_product, Finset.mem_range, Finset.mem_range] at hp
    rw [Location.mk.injEq] at hpe
    obtain ⟨h1, h2⟩ := hpe
    subst h1
    subst h2
    refine ⟨by positivity, by exact_mod_cast hp.1, by positivity,
      by exact_mod_cast hp.2⟩
  · rintro ⟨hx0, hxw, hy0, hyh⟩
    refine ⟨(a.toNat, b.toNat), ?_, ?_⟩
    · rw [Finset.mem_product, Finset.mem_range, Finset.mem_range]
      omega
    · rw [Location.mk.injEq]
      omega

theorem card_boardFinset (w h : Nat) : (boardFinset w h).card = w * h := by
  unfold boardFinset
  rw [Finset.card_image_of_injective, Finset.card_product, Finset.card_range,
      Finset.card_range]
  intro p q hpq
  rw [Location.mk.injEq] at hpq
  have h1 : p.1 = q.1 := by exact_mod_cast hpq.1
  have h2 : p.2 = q.2 := by exact_mod_cast hpq.2
  exact Prod.ext h1 h2

/-- A duplicate-free list of board cells avoiding one board cell has fewer
than w*h elements. -/
theorem length_lt_of_avoid {L : List Location} {w h : Nat} {f : Location}
    (hnd : L.Nodup) (hsub : ∀ l ∈ L, l ∈ boardFinset w h)
    (hf : f ∈ boardFinset w h) (hfn : f ∉ L) :
    L.length < w * h := by
  have h1 : L.toFinset ⊆ (boardFinset w h).erase f := by
    intro x hx
    rw [Finset.mem_erase]
    have hxL := List.mem_toFinset.mp hx
    exact ⟨fun he => hfn (he ▸ hxL), hsub x hxL⟩
  have h2 : L.toFinset.card = L.length := List.toFinset_card_of_nodup hnd
  have h3 := Finset.card_le_card h1
  rw [Finset.card_erase_of_mem hf, card_boardFinset] at h3
  have hpos : 0 < (boardFinset w h).card := Finset.card_pos.mpr ⟨f, hf⟩
  rw [card_boardFinset] at hpos
  omega

/-- If every board cell lies in a list, the cell count is at most the list
length. -/
theorem cells_le_of_all_mem {t : List Location} {w h : Nat}
    (hall : ∀ a b : Int, 0 ≤ a → a < w → 0 ≤ b → b < h → Location.mk a b ∈ t) :
    w * h ≤ t.length := by
  have h1 : boardFinset w h ⊆ t.toFinset := by
    intro l hl
    rw [mem_boardFinset] at hl
    rw [List.mem_toFinset]
    have := hall l.x l.y hl.1 hl.2.1 hl.2.2.1 hl.2.2.2
    cases l with
    | mk a b => exact this
  have h2 := Finset.card_le_card h1
  rw [card_boardFinset] at h2
  exact h2.trans t.toFinset_card_le

/-! ## Claim C8 -/

theorem take_two_set {α : Type} (z a b : α) (m : Nat) (hm : 2 ≤ m) :
    (((List.replicate m z).set 1 a).set 0 b).take 2 = [b, a] := by
  obtain ⟨k, rfl⟩ : ∃ k, m = k + 2 := ⟨m - 2, by omega⟩
  rw [show k + 2 = (k + 1) + 1 from rfl, List.replicate_succ,
      List.replicate_succ]
  simp [List.set_cons_succ, List.take_succ_cons]

/-- C8: construction fails loudly (modelled as `none`) whenever either
backing capacity differs from width*height; with matching capacities and
at least 3 cells it succeeds and yields an InProgress game, both directions
Right, logical length 2, tail at (center_x - 1, center_y), head at
(center_x, center_y), and a fruit produced by the Fruit Placement Search
seeded at the wrap of a location whose x is the first and y the second
draw of the random source. -/
theorem claim_C8 (capS capB width height : Nat) (rng0 : Rng) :
    ((capS ≠ width * height ∨ capB ≠ width * height) →
      Game.new capS capB width height rng0 = none) ∧
    (capS = width * height → capB = width * height → 3 ≤ width * height →
      ∃ g, Game.new capS capB width height rng0 = some g ∧
        g.status = GameStatus.InProgress ∧
        g.current_direction = Direction.Right ∧
        g.next_direction = Direction.Right ∧
        g.snake_size = 2 ∧
        g.liveSnake =
          [Location.mk (((width / 2 : Nat) : Int) - 1) ((height / 2 : Nat) : Int),
           Location.mk ((width / 2 : Nat) : Int) ((height / 2 : Nat) : Int)] ∧
        place_new_fruit
          ((Location.mk (u32ToI32 (rng0.seq rng0.idx % 2 ^ 32))
            (u32ToI32 (rng0.seq (rng0.idx + 1) % 2 ^ 32))).wrap width height)
          width height
          [Location.mk (((width / 2 : Nat) : Int) - 1) ((height / 2 : Nat) : Int),
           Location.mk ((width / 2 : Nat) : Int) ((height / 2 : Nat) : Int)]
          = some g.fruit) := by
  constructor
  · intro hor
    unfold Game.new
    rw [if_neg (by tauto)]
  · intro hS hB h3
    subst hS
    subst hB
    have hw : 0 < width := by
      rcases Nat.eq_zero_or_pos width with rfl | hw
      · simp at h3
      · exact hw
    have hh : 0 < height := by
      rcases Nat.eq_zero_or_pos height with rfl | hh
      · simp at h3
      · exact hh
    have hlive : ((((List.replicate (width * height) (Location.mk 0 0)).set 1
        (Location.mk ((width / 2 : Nat) : Int) ((height / 2 : Nat) : Int))).set 0
        (Location.mk (((width / 2 : Nat) : Int) - 1)
          ((height / 2 : Nat) : Int))).take 2) =
        [Location.mk (((width / 2 : Nat) : Int) - 1) ((height / 2 : Nat) : Int),
         Location.mk ((width / 2 : Nat) : Int) ((height / 2 : Nat) : Int)] :=
      take_two_set _ _ _ _ (by omega)
    obtain ⟨loc, hloc⟩ : ∃ loc,
        place_new_fruit
          ((Location.mk (u32ToI32 (rng0.seq rng0.idx % 2 ^ 32))
            (u32ToI32 (rng0.seq (rng0.idx + 1) % 2 ^ 32))).wrap width height)
          width height
          [Location.mk (((width / 2 : Nat) : Int) - 1) ((height / 2 : Nat) : Int),
           Location.mk ((width / 2 : Nat) : Int) ((height / 2 : Nat) : Int)]
          = some loc := by
      rcases hcase : place_new_fruit
          ((Location.mk (u32ToI32 (rng0.seq rng0.idx % 2 ^ 32))
            (u32ToI32 (rng0.seq (rng0.idx + 1) % 2 ^ 32))).wrap width height)
          width height
          [Location.mk (((width / 2 : Nat) : Int) - 1) ((height / 2 : Nat) : Int),
           Location.mk ((width / 2 : Nat) : Int) ((height / 2 : Nat) : Int)]
        with _ | loc
      · exfalso
        have hsx : 0 ≤ ((Location.mk (u32ToI32 (rng0.seq rng0.idx % 2 ^ 32))
            (u32ToI32 (rng0.seq (rng0.idx + 1) % 2 ^ 32))).wrap width height).x :=
          wrapCoord_nonneg hw
        have hsy : 0 ≤ ((Location.mk (u32ToI32 (rng0.seq rng0.idx % 2 ^ 32))
            (u32ToI32 (rng0.seq (rng0.idx + 1) % 2 ^ 32))).wrap width height).y :=
          wrapCoord_nonneg hh
        have hall := (place_new_fruit_none_iff hsx hsy).mp hcase
        have hle := cells_le_of_all_mem hall
        simp only [List.length_cons, List.length_nil] at hle
        omega
      · exact ⟨loc, rfl⟩
    refine ⟨{ width := width, height := height,
              snake := (((List.replicate (width * height) (Location.mk 0 0)).set 1
                (Location.mk ((width / 2 : Nat) : Int)
                  ((height / 2 : Nat) : Int))).set 0
                (Location.mk (((width / 2 : Nat) : Int) - 1)
                  ((height / 2 : Nat) : Int))),
              snake_size := 2, current_direction := Direction.Right,
              next_direction := Direction.Right, fruit := loc,
              status := GameStatus.InProgress,
              rng := ⟨rng0.seq, rng0.idx + 2⟩ }, ?_, rfl, rfl, rfl, rfl, ?_, ?_⟩
    · unfold Game.new
      rw [if_pos ⟨rfl, rfl⟩]
      dsimp only
      rw [placeNewFruitRng_spec]
      dsimp only
      show Option.map _ (place_new_fruit _ width height
        ((((List.replicate (width * height) (Location.mk 0 0)).set 1
          (Location.mk ((width / 2 : Nat) : Int) ((height / 2 : Nat) : Int))).set 0
          (Location.mk (((width / 2 : Nat) : Int) - 1)
            ((height / 2 : Nat) : Int))).take 2)) = _
      rw [hlive]
      unfold Game.freshFruitSeed
      dsimp only
      rw [hloc]
      rfl
    · show ((((List.replicate (width * height) (Location.mk 0 0)).set 1
        (Location.mk ((width / 2 : Nat) : Int) ((height / 2 : Nat) : Int))).set 0
        (Location.mk (((width / 2 : Nat) : Int) - 1)
          ((height / 2 : Nat) : Int))).take 2) = _
      exact hlive
    · exact hloc

/-- C8 witness: construction on a 3-by-3 board with capacity 9 and an
all-zero random source. -/
theorem claim_C8_witness :
    ((9 ≠ 3 * 3 ∨ 9 ≠ 3 * 3) →
      Game.new 9 9 3 3 ⟨fun _ => 0, 0⟩ = none) ∧
    (9 = 3 * 3 → 9 = 3 * 3 → 3 ≤ 3 * 3 →
      ∃ g, Game.new 9 9 3 3 ⟨fun _ => 0, 0⟩ = some g ∧
        g.status = GameStatus.InProgress ∧
        g.current_direction = Direction.Right ∧
        g.next_direction = Direction.Right ∧
        g.snake_size = 2 ∧
        g.liveSnake =
          [Location.mk (((3 / 2 : Nat) : Int) - 1) ((3 / 2 : Nat) : Int),
           Location.mk ((3 / 2 : Nat) : Int) ((3 / 2 : Nat) : Int)] ∧
        place_new_fruit
          ((Location.mk (u32ToI32 ((fun _ => 0 : Nat → Nat) 0 % 2 ^ 32))
            (u32ToI32 ((fun _ => 0 : Nat → Nat) (0 + 1) % 2 ^ 32))).wrap 3 3)
          3 3
          [Location.mk (((3 / 2 : Nat) : Int) - 1) ((3 / 2 : Nat) : Int),
           Location.mk ((3 / 2 : Nat) : Int) ((3 / 2 : Nat) : Int)]
          = some g.fruit) :=
  claim_C8 9 9 3 3 ⟨fun _ => 0, 0⟩

/-! ## Claim C9: the reachable-state invariant -/

/-- A location lies strictly inside the width-by-height board. -/
def inBoard (w h : Nat) (l : Location) : Prop :=
  0 ≤ l.x ∧ l.x < w ∧ 0 ≤ l.y ∧ l.y < h

/-- The inductive state invariant maintained by the engine on boards with
both dimensions at least 2. -/
def GameInv (g : Game) : Prop :=
  2 ≤ g.width ∧ 2 ≤ g.height ∧
  g.snake.length = g.width * g.height ∧
  1 ≤ g.snake_size ∧ g.snake_size ≤ g.snake.length ∧
  g.liveSnake.Nodup ∧
  (∀ l ∈ g.liveSnake, inBoard g.width g.height l) ∧
  (g.status = GameStatus.InProgress →
    inBoard g.width g.height g.fruit ∧ g.fruit ∉ g.liveSnake)

theorem getLastD_mem_of_ne_nil {α : Type} {l : List α} (h : l ≠ []) (d : α) :
    l.getLastD d ∈ l := by
  cases l with
  | nil => exact absurd rfl h
  | cons x xs =>
    rw [List.getLastD_cons]
    exact List.getLastD_mem_cons xs x

/-- The new head location stays in the board when both dimensions are at
least 2 and the old head is in the board. -/
theorem calc_inBoard (g : Game) (h2w : 2 ≤ g.width) (h2h : 2 ≤ g.height)
    (hlast : inBoard g.width g.height (g.liveSnake.getLastD ⟨0, 0⟩)) :
    inBoard g.width g.height g.calcualte_new_head_location := by
  obtain ⟨hx0, hxw, hy0, hyh⟩ := hlast
  unfold Game.calcualte_new_head_location Location.wrap inBoard
  cases g.current_direction <;> unfold Location.move_in <;> dsimp only
  · have hx := wrapCoord_nonneg_range hx0 (show 0 < g.width by omega)
    have hy := wrapCoord_move_range h2h
      (v := (g.liveSnake.getLastD ⟨0, 0⟩).y - 1) (by omega)
    exact ⟨hx.1, hx.2, hy.1, hy.2⟩
  · have hx := wrapCoord_nonneg_range hx0 (show 0 < g.width by omega)
    have hy := wrapCoord_move_range h2h
      (v := (g.liveSnake.getLastD ⟨0, 0⟩).y + 1) (by omega)
    exact ⟨hx.1, hx.2, hy.1, hy.2⟩
  · have hx := wrapCoord_move_range h2w
      (v := (g.liveSnake.getLastD ⟨0, 0⟩).x - 1) (by omega)
    have hy := wrapCoord_nonneg_range hy0 (show 0 < g.height by omega)
    exact ⟨hx.1, hx.2, hy.1, hy.2⟩
  · have hx := wrapCoord_move_range h2w
      (v := (g.liveSnake.getLastD ⟨0, 0⟩).x + 1) (by omega)
    have hy := wrapCoord_nonneg_range hy0 (show 0 < g.height by omega)
    exact ⟨hx.1, hx.2, hy.1, hy.2⟩

/-- The components of the fresh fruit seed are never negative. -/
theorem freshFruitSeed_nonneg (g : Game) (hw : 0 < g.width)
    (hh : 0 < g.height) :
    0 ≤ g.freshFruitSeed.x ∧ 0 ≤ g.freshFruitSeed.y :=
  ⟨wrapCoord_nonneg hw, wrapCoord_nonneg hh⟩

theorem stepMoved_eq_eat (g : Game)
    (heat : g.fruit = g.calcualte_new_head_location) :
    g.stepMoved =
      (match (g.eat_the_fruit.placeNewFruitRng).1 with
       | some l => (GameStatus.InProgress,
           { (g.eat_the_fruit.placeNewFruitRng).2 with fruit := l })
       | none => (GameStatus.Won, (g.eat_the_fruit.placeNewFruitRng).2)) := by
  unfold Game.stepMoved
  dsimp only
  rw [if_pos heat]

theorem stepMoved_eq_lost (g : Game)
    (hne : ¬ g.fruit = g.calcualte_new_head_location)
    (hmem : g.calcualte_new_head_location ∈ g.liveSnake) :
    g.stepMoved = (GameStatus.Lost, g) := by
  unfold Game.stepMoved
  dsimp only
  rw [if_neg hne, if_pos hmem]

theorem stepMoved_eq_move (g : Game)
    (hne : ¬ g.fruit = g.calcualte_new_head_location)
    (hnc : g.calcualte_new_head_location ∉ g.liveSnake) :
    g.stepMoved = (GameStatus.InProgress,
      g.move_snake_in_current_direction g.calcualte_new_head_location) := by
  unfold Game.stepMoved
  dsimp only
  rw [if_neg hne, if_neg hnc]

theorem nodup_append_singleton {α : Type} {l : List α} {a : α}
    (hnd : l.Nodup) (ha : a ∉ l) : (l ++ [a]).Nodup := by
  rw [List.nodup_append]
  refine ⟨hnd, List.nodup_singleton a, ?_⟩
  intro x hx hxa
  rw [List.mem_singleton] at hxa
  subst hxa
  exact ha hx

theorem gameInv_change (g : Game) (h : GameInv g) : GameInv g.change_direction := by
  unfold GameInv at h ⊢
  rw [change_direction_width, change_direction_height, change_direction_snake,
      change_direction_snake_size, change_direction_liveSnake,
      change_direction_fruit, change_direction_status]
  exact h

/-- One advance call preserves the invariant. -/
theorem advance_inv {g : Game} (hI : GameInv g) : GameInv (g.advance).2 := by
  by_cases hst : g.status = GameStatus.InProgress
  case neg =>
    unfold Game.advance
    rw [if_neg hst]
    exact hI
  case pos =>
  have hIc := gameInv_change g hI
  obtain ⟨h2w, h2h, hlen, hsz1, hszle, hnd, hib, hfr⟩ := hIc
  have hstc : g.change_direction.status = GameStatus.InProgress := by
    rw [change_direction_status]
    exact hst
  obtain ⟨hfb, hfnl⟩ := hfr hstc
  have hlive_len : g.change_direction.liveSnake.length =
      g.change_direction.snake_size := by
    unfold Game.liveSnake
    rw [List.length_take]
    omega
  have hlive_ne : g.change_direction.liveSnake ≠ [] := by
    intro hnil
    rw [hnil] at hlive_len
    simp only [List.length_nil] at hlive_len
    omega
  have hlast := hib _ (getLastD_mem_of_ne_nil hlive_ne ⟨0, 0⟩)
  have hnh : inBoard g.change_direction.width g.change_direction.height
      g.change_direction.calcualte_new_head_location :=
    calc_inBoard _ h2w h2h hlast
  have hadv : (g.advance).2 =
      { (g.change_direction.stepMoved).2 with
          status := (g.change_direction.stepMoved).1 } := by
    unfold Game.advance Game.move_snake_and_get_status
    rw [if_pos hst]
  rw [hadv]
  by_cases hfrnh : g.change_direction.fruit =
      g.change_direction.calcualte_new_head_location
  · -- the head eats the fruit
    have hib' : ∀ l ∈ g.change_direction.liveSnake,
        l ∈ boardFinset g.change_direction.width g.change_direction.height :=
      fun l hl => mem_boardFinset.mpr (hib l hl)
    have hszlt : g.change_direction.snake_size <
        g.change_direction.snake.length := by
      have hlt := length_lt_of_avoid hnd hib' (mem_boardFinset.mpr hfb) hfnl
      rw [hlive_len] at hlt
      omega
    have heatlive : g.change_direction.eat_the_fruit.liveSnake =
        g.change_direction.liveSnake ++ [g.change_direction.fruit] :=
      eat_liveSnake _ hszlt
    rw [stepMoved_eq_eat _ hfrnh, placeNewFruitRng_spec]
    dsimp only
    rcases hres : place_new_fruit
        (g.change_direction.eat_the_fruit.freshFruitSeed)
        (g.change_direction.eat_the_fruit.width)
        (g.change_direction.eat_the_fruit.height)
        (g.change_direction.eat_the_fruit.liveSnake) with _ | l
    · dsimp only
      unfold GameInv
      refine ⟨h2w, h2h, ?_, ?_, ?_, ?_, ?_, ?_⟩
      · show (g.change_direction.snake.set _ _).length = _
        rw [List.length_set]
        exact hlen
      · show 1 ≤ g.change_direction.snake_size + 1
        omega
      · show g.change_direction.snake_size + 1 ≤
          (g.change_direction.snake.set _ _).length
        rw [List.length_set]
        omega
      · show (g.change_direction.eat_the_fruit.liveSnake).Nodup
        rw [heatlive]
        exact nodup_append_singleton hnd hfnl
      · intro l hl
        have hl2 : l ∈ g.change_direction.eat_the_fruit.liveSnake := hl
        rw [heatlive, List.mem_append] at hl2
        rcases hl2 with hl2 | hl2
        · exact hib l hl2
        · rw [List.mem_singleton] at hl2
          subst hl2
          exact hfb
      · intro hcon
        exact absurd hcon (by simp)
    · dsimp only
      unfold GameInv
      have hsome := place_new_fruit_some hres
      refine ⟨h2w, h2h, ?_, ?_, ?_, ?_, ?_, ?_⟩
      · show (g.change_direction.snake.set _ _).length = _
        rw [List.length_set]
        exact hlen
      · show 1 ≤ g.change_direction.snake_size + 1
        omega
      · show g.change_direction.snake_size + 1 ≤
          (g.change_direction.snake.set _ _).length
        rw [List.length_set]
        omega
      · show (g.change_direction.eat_the_fruit.liveSnake).Nodup
        rw [heatlive]
        exact nodup_append_singleton hnd hfnl
      · intro l2 hl
        have hl2 : l2 ∈ g.change_direction.eat_the_fruit.liveSnake := hl
        rw [heatlive, List.mem_append] at hl2
        rcases hl2 with hl2 | hl2
        · exact hib l2 hl2
        · rw [List.mem_singleton] at hl2
          subst hl2
          exact hfb
      · intro _
        constructor
        · exact fruitCandidates_inBoard
            (freshFruitSeed_nonneg g.change_direction.eat_the_fruit
              (by show 0 < g.change_direction.width; omega)
              (by show 0 < g.change_direction.height; omega)).1
            (freshFruitSeed_nonneg g.change_direction.eat_the_fruit
              (by show 0 < g.change_direction.width; omega)
              (by show 0 < g.change_direction.height; omega)).2
            (by show 0 < g.change_direction.width; omega)
            (by show 0 < g.change_direction.height; omega) hsome.2
        · intro hmem2
          apply hsome.1
          exact hmem2
  · by_cases hmem : g.change_direction.calcualte_new_head_location ∈
        g.change_direction.liveSnake
    · -- self collision: state unchanged apart from status Lost
      rw [stepMoved_eq_lost _ hfrnh hmem]
      dsimp only
      unfold GameInv
      refine ⟨h2w, h2h, hlen, hsz1, hszle, hnd, hib, ?_⟩
      intro hcon
      exact absurd hcon (by simp)
    · -- normal move
      rw [stepMoved_eq_move _ hfrnh hmem]
      dsimp only
      have hmoved : (g.change_direction.move_snake_in_current_direction
          g.change_direction.calcualte_new_head_location).liveSnake =
          g.change_direction.liveSnake.drop 1 ++
            [g.change_direction.calcualte_new_head_location] :=
        moved_liveSnake _ _ hsz1 hszle
      have hdropsub : ∀ l ∈ g.change_direction.liveSnake.drop 1,
          l ∈ g.change_direction.liveSnake :=
        fun l hl => List.mem_of_mem_drop hl
      unfold GameInv
      refine ⟨h2w, h2h, ?_, hsz1, ?_, ?_, ?_, ?_⟩
      · show (g.change_direction.move_snake_in_current_direction
          _).snake.length = _
        rw [moved_snake_length _ _ hsz1 hszle]
        exact hlen
      · show g.change_direction.snake_size ≤
          (g.change_direction.move_snake_in_current_direction _).snake.length
        rw [moved_snake_length _ _ hsz1 hszle]
        exact hszle
      · show (g.change_direction.move_snake_in_current_direction
          _).liveSnake.Nodup
        rw [hmoved]
        exact nodup_append_singleton
          (hnd.sublist (List.drop_sublist 1 _))
          (fun hc => hmem (hdropsub _ hc))
      · intro l hl
        have hl2 : l ∈ (g.change_direction.move_snake_in_current_direction
            g.change_direction.calcualte_new_head_location).liveSnake := hl
        rw [hmoved, List.mem_append] at hl2
        rcases hl2 with hl2 | hl2
        · exact hib l (hdropsub l hl2)
        · rw [List.mem_singleton] at hl2
          subst hl2
          exact hnh
      · intro _
        constructor
        · exact hfb
        · intro hc
          have hc2 : g.change_direction.fruit ∈
              (g.change_direction.move_snake_in_current_direction
                g.change_direction.calcualte_new_head_location).liveSnake := hc
          rw [hmoved, List.mem_append] at hc2
          rcases hc2 with hc2 | hc2
          · exact hfnl (hdropsub _ hc2)
          · rw [List.mem_singleton] at hc2
            exact hfrnh hc2

theorem stepMoved_dims (g : Game) :
    ((g.stepMoved).2).width = g.width ∧ ((g.stepMoved).2).height = g.height := by
  unfold Game.stepMoved
  dsimp only
  split
  · split <;> exact ⟨rfl, rfl⟩
  · split <;> exact ⟨rfl, rfl⟩

theorem advance_dims (g : Game) :
    ((g.advance).2).width = g.width ∧ ((g.advance).2).height = g.height := by
  unfold Game.advance
  split
  · dsimp only
    constructor
    · show ((g.move_snake_and_get_status).2).width = g.width
      unfold Game.move_snake_and_get_status
      rw [(stepMoved_dims _).1, change_direction_width]
    · show ((g.move_snake_and_get_status).2).height = g.height
      unfold Game.move_snake_and_get_status
      rw [(stepMoved_dims _).2, change_direction_height]
  · exact ⟨rfl, rfl⟩

theorem step_inv {g : Game} (hI : GameInv g) (op : Op) : GameInv (g.step op) := by
  cases op with
  | advanceOp => exact advance_inv hI
  | setDir d => exact hI
  | boardOp => exact hI

theorem step_dims (g : Game) (op : Op) :
    (g.step op).width = g.width ∧ (g.step op).height = g.height := by
  cases op with
  | advanceOp => exact advance_dims g
  | setDir d => exact ⟨rfl, rfl⟩
  | boardOp => exact ⟨rfl, rfl⟩

/-- The invariant and the dimensions survive any call sequence. -/
theorem run_inv {g : Game} (hI : GameInv g) (ops : List Op) :
    GameInv (g.run ops) ∧ (g.run ops).width = g.width ∧
    (g.run ops).height = g.height := by
  induction ops generalizing g with
  | nil => exact ⟨hI, rfl, rfl⟩
  | cons op ops ih =>
    have h1 := step_dims g op
    have h2 := ih (step_inv hI op)
    exact ⟨h2.1, h2.2.1.trans h1.1, h2.2.2.trans h1.2⟩

/-- A successful construction on a board with both dimensions at least 2
satisfies the invariant. -/
theorem new_inv {capS capB w h : Nat} {r : Rng} {g0 : Game}
    (hw : 2 ≤ w) (hh : 2 ≤ h)
    (hnew : Game.new capS capB w h r = some g0) :
    GameInv g0 ∧ g0.width = w ∧ g0.height = h := by
  unfold Game.new at hnew
  by_cases hC : capS = w * h ∧ capB = w * h
  case neg =>
    rw [if_neg hC] at hnew
    exact absurd hnew (by simp)
  case pos =>
  obtain ⟨hCS, hCB⟩ := hC
  subst hCS
  subst hCB
  rw [if_pos ⟨rfl, rfl⟩] at hnew
  dsimp only at hnew
  rw [placeNewFruitRng_spec] at hnew
  dsimp only at hnew
  rw [Option.map_eq_some'] at hnew
  obtain ⟨f, hf, hg0⟩ := hnew
  subst hg0
  have hm2 : 2 ≤ w * h := by nlinarith
  have hlive : ((((List.replicate (w * h) (Location.mk 0 0)).set 1
      (Location.mk ((w / 2 : Nat) : Int) ((h / 2 : Nat) : Int))).set 0
      (Location.mk (((w / 2 : Nat) : Int) - 1) ((h / 2 : Nat) : Int))).take 2) =
      [Location.mk (((w / 2 : Nat) : Int) - 1) ((h / 2 : Nat) : Int),
       Location.mk ((w / 2 : Nat) : Int) ((h / 2 : Nat) : Int)] :=
    take_two_set _ _ _ _ hm2
  have hsome := place_new_fruit_some hf
  refine ⟨⟨hw, hh, ?_, ?_, ?_, ?_, ?_, ?_⟩, rfl, rfl⟩
  · show ((((List.replicate (w * h) (Location.mk 0 0)).set 1 _).set 0
      _)).length = w * h
    rw [List.length_set, List.length_set, List.length_replicate]
  · show (1 : Nat) ≤ 2
    omega
  · show (2 : Nat) ≤ ((((List.replicate (w * h) (Location.mk 0 0)).set 1 _).set 0
      _)).length
    rw [List.length_set, List.length_set, List.length_replicate]
    exact hm2
  · show ((((List.replicate (w * h) (Location.mk 0 0)).set 1
      (Location.mk ((w / 2 : Nat) : Int) ((h / 2 : Nat) : Int))).set 0
      (Location.mk (((w / 2 : Nat) : Int) - 1) ((h / 2 : Nat) : Int))).take 2).Nodup
    rw [hlive]
    refine List.nodup_cons.mpr ⟨?_, List.nodup_singleton _⟩
    rw [List.mem_singleton, Location.mk.injEq]
    intro hcon
    omega
  · intro l hl
    have hl2 : l ∈ ((((List.replicate (w * h) (Location.mk 0 0)).set 1
        (Location.mk ((w / 2 : Nat) : Int) ((h / 2 : Nat) : Int))).set 0
        (Location.mk (((w / 2 : Nat) : Int) - 1) ((h / 2 : Nat) : Int))).take 2) := hl
    rw [hlive] at hl2
    unfold inBoard
    rcases hl2 with _ | ⟨_, hl2⟩
    · show 0 ≤ ((w / 2 : Nat) : Int) - 1 ∧ ((w / 2 : Nat) : Int) - 1 < w ∧
        0 ≤ ((h / 2 : Nat) : Int) ∧ ((h / 2 : Nat) : Int) < h
      omega
    · rcases hl2 with _ | ⟨_, hcon⟩
      · show 0 ≤ ((w / 2 : Nat) : Int) ∧ ((w / 2 : Nat) : Int) < w ∧
          0 ≤ ((h / 2 : Nat) : Int) ∧ ((h / 2 : Nat) : Int) < h
        omega
      · cases hcon
  · intro _
    constructor
    · exact fruitCandidates_inBoard
        (freshFruitSeed_nonneg _ (by show 0 < w; omega)
          (by show 0 < h; omega)).1
        (freshFruitSeed_nonneg _ (by show 0 < w; omega)
          (by show 0 < h; omega)).2
        (by show 0 < w; omega) (by show 0 < h; omega) hsome.2
    · exact hsome.1

/-- C9 counterexample: on a 1-by-3 board construction succeeds, yet the
initial state (reachable with the empty call sequence) has its tail at
x = -1, outside [0, width): the claimed invariant fails as stated for all
successfully constructed games. -/
theorem claim_C9_counterexample :
    (Game.new 3 3 1 3 ⟨fun _ => 0, 0⟩).map Game.liveSnake =
      some [Location.mk (-1) 1, Location.mk 0 1] ∧
    (Location.mk (-1) 1).x < 0 := by
  constructor
  · rfl
  · decide

/-- C9 (amended): for every successfully constructed game on a board with
width at least 2 and height at least 2, in every state reachable by any
sequence of advance, set_direction and board calls the live snake segments
are pairwise distinct and every live segment lies within
[0,width) x [0,height). -/
theorem claim_C9_amended (capS capB w h : Nat) (r : Rng) (g0 : Game)
    (hw : 2 ≤ w) (hh : 2 ≤ h)
    (hnew : Game.new capS capB w h r = some g0) :
    ∀ ops : List Op,
      ((g0.run ops).liveSnake).Nodup ∧
      ∀ l ∈ (g0.run ops).liveSnake,
        0 ≤ l.x ∧ l.x < w ∧ 0 ≤ l.y ∧ l.y < h := by
  intro ops
  obtain ⟨hI0, hw0, hh0⟩ := new_inv hw hh hnew
  obtain ⟨hIr, hwr, hhr⟩ := run_inv hI0 ops
  obtain ⟨-, -, -, -, -, hnd, hib, -⟩ := hIr
  refine ⟨hnd, fun l hl => ?_⟩
  have hb := hib l hl
  unfold inBoard at hb
  rw [hwr, hw0, hhr, hh0] at hb
  exact hb

/-- The game produced by constructing on a 2-by-2 board with an all-zero
random source. -/
def gC9W : Game :=
  { width := 2, height := 2,
    snake := ((List.replicate 4 (Location.mk 0 0)).set 1 ⟨1, 1⟩).set 0 ⟨0, 1⟩,
    snake_size := 2, current_direction := Direction.Right,
    next_direction := Direction.Right, fruit := ⟨0, 0⟩,
    status := GameStatus.InProgress, rng := ⟨fun _ => 0, 2⟩ }

/-- C9 witness: the amended invariant at the concrete 2-by-2 construction,
checked against all call sequences. -/
theorem claim_C9_witness :
    2 ≤ 2 ∧ 2 ≤ 2 ∧
    Game.new 4 4 2 2 ⟨fun _ => 0, 0⟩ = some gC9W ∧
    ∀ ops : List Op,
      ((gC9W.run ops).liveSnake).Nodup ∧
      ∀ l ∈ (gC9W.run ops).liveSnake,
        0 ≤ l.x ∧ l.x < 2 ∧ 0 ≤ l.y ∧ l.y < 2 :=
  ⟨by decide, by decide, rfl,
   claim_C9_amended 4 4 2 2 ⟨fun _ => 0, 0⟩ gC9W (by decide) (by decide) rfl⟩
